import Mathlib

/-!
# Verification of the toMarkdown client state model

Shallow embedding of the job/file state handling of the toMarkdown web
client (`frontend/src/stores/app.ts`, `frontend/src/components/JobList.tsx`,
`frontend/src/components/FileUpload.tsx`, `frontend/src/types`), together
with spec-modelled fragments for the server-side File Store and Settings
Store whose implementation is not part of the frontend sources.

Lists model JavaScript arrays; `Option` models `T | null` and optional
(`Partial`) fields; strings are modelled as Lean `String` / `List Char`,
and, where lower-casing matters, as lists of code points (`List Nat`).
-/

/-- `ConversionStatus` from `frontend/src/types` (part_000). -/
inductive ConversionStatus where
  | pending
  | processing
  | completed
  | failed
deriving DecidableEq, Repr

/-- `ConverterType` from `frontend/src/types` (part_000). -/
inductive ConverterType where
  | markitdown
  | docling
  | marker
  | pypandoc
  | unstructured
  | mammoth
  | html2text
  | auto
deriving DecidableEq, Repr

/-- `FileInfo` from `frontend/src/types` (part_000). -/
structure FileInfo where
  id : String
  name : String
  size : Nat
  mime_type : String
  extension : String
deriving DecidableEq, Repr

/-- `ConversionJob` from `frontend/src/types` (part_000); `created_at` is an
ISO timestamp in the source, modelled here as a number so that the
"ordered by created_at descending" property can be stated. -/
structure ConversionJob where
  id : String
  file_info : FileInfo
  converter : ConverterType
  status : ConversionStatus
  progress : Nat
  created_at : Nat
  completed_at : Option Nat
  output_file : Option String
  output_size : Option Nat
  error : Option String
  processing_time : Option Nat
deriving DecidableEq, Repr

/-- `Partial<ConversionJob>`: every field may be absent; a present field
overrides the job's field (including nullable fields set to null). -/
structure JobUpdate where
  id : Option String := none
  file_info : Option FileInfo := none
  converter : Option ConverterType := none
  status : Option ConversionStatus := none
  progress : Option Nat := none
  created_at : Option Nat := none
  completed_at : Option (Option Nat) := none
  output_file : Option (Option String) := none
  output_size : Option (Option Nat) := none
  error : Option (Option String) := none
  processing_time : Option (Option Nat) := none
deriving DecidableEq, Repr

/-- JavaScript object spread `{ ...j, ...updates }`: each field present in
`updates` replaces the corresponding field of `j`. -/
def applyUpdate (j : ConversionJob) (u : JobUpdate) : ConversionJob where
  id := u.id.getD j.id
  file_info := u.file_info.getD j.file_info
  converter := u.converter.getD j.converter
  status := u.status.getD j.status
  progress := u.progress.getD j.progress
  created_at := u.created_at.getD j.created_at
  completed_at := u.completed_at.getD j.completed_at
  output_file := u.output_file.getD j.output_file
  output_size := u.output_size.getD j.output_size
  error := u.error.getD j.error
  processing_time := u.processing_time.getD j.processing_time

/-- `updateJob` from `stores/app.ts` lines 104-107:
`jobs.map((j) => (j.id === id ? { ...j, ...updates } : j))`. -/
def updateJob (id : String) (updates : JobUpdate) (jobs : List ConversionJob) :
    List ConversionJob :=
  jobs.map (fun j => if j.id = id then applyUpdate j updates else j)

/-- `removeJob` from `stores/app.ts` lines 108-109:
`jobs.filter((j) => j.id !== id)`. -/
def removeJob (id : String) (jobs : List ConversionJob) : List ConversionJob :=
  jobs.filter (fun j => j.id ≠ id)

/-- `addJobs` from `stores/app.ts` line 103:
`jobs: [...jobs, ...state.jobs]` (new jobs spread before the existing ones). -/
def addJobs (newJobs : List ConversionJob) (stateJobs : List ConversionJob) :
    List ConversionJob :=
  newJobs ++ stateJobs

/-- `removeUploadedFile` from `stores/app.ts` lines 90-93:
`uploadedFiles.filter((f) => f.id !== id)`. -/
def removeUploadedFile (id : String) (files : List FileInfo) : List FileInfo :=
  files.filter (fun f => f.id ≠ id)

/-- `handleRemove` from `FileUpload.tsx` lines 72-80: the server delete is
attempted first; `removeUploadedFile` runs both on the success path and in
the catch handler, so the client state change is the same either way.
`serverOk` abstracts whether `converterApi.removeFile` succeeded. -/
def handleRemove (serverOk : Bool) (fileId : String) (files : List FileInfo) :
    List FileInfo :=
  if serverOk then removeUploadedFile fileId files
  else removeUploadedFile fileId files

/-- `hasActiveJobs` from `JobList.tsx` lines 59-61:
`jobs.some((j) => j.status === "pending" || j.status === "processing")`. -/
def hasActiveJobs (jobs : List ConversionJob) : Bool :=
  jobs.any (fun j =>
    j.status = ConversionStatus.pending ∨ j.status = ConversionStatus.processing)

/-- The `refetchInterval` option of the jobs query: either a number of
milliseconds or the literal `false` (polling disabled). -/
inductive RefetchInterval where
  | millis (n : Nat)
  | disabled
deriving DecidableEq, Repr

/-- `refetchInterval: hasActiveJobs ? 2000 : false` from `JobList.tsx`
line 66. -/
def jobsRefetchInterval (jobs : List ConversionJob) : RefetchInterval :=
  if hasActiveJobs jobs then RefetchInterval.millis 2000
  else RefetchInterval.disabled

/-- `selectedCompletedJobs` from `JobList.tsx` lines 88-89: the jobs whose id
is in the selection set, further filtered to status `completed`. The
selection `Set<string>` is modelled as a list of ids with `contains` as
membership. -/
def selectedCompletedJobs (jobs : List ConversionJob) (selectedIds : List String) :
    List ConversionJob :=
  (jobs.filter (fun j => selectedIds.contains j.id)).filter
    (fun j => j.status = ConversionStatus.completed)

/-- Which network request `handleDownloadSelected` ends up issuing. -/
inductive DownloadAction where
  | noRequest
  | single (jobId : String)
  | multiple (jobIds : List String)
deriving DecidableEq, Repr

/-- `handleDownloadSelected` from `JobList.tsx` lines 129-156: return early
when no selected job is completed; one selected completed job goes through
the single-file `handleDownload`; otherwise the ids of the selected
completed jobs are posted to the download-multiple endpoint. -/
def handleDownloadSelected (jobs : List ConversionJob) (selectedIds : List String) :
    DownloadAction :=
  match selectedCompletedJobs jobs selectedIds with
  | [] => DownloadAction.noRequest
  | [j] => DownloadAction.single j.id
  | js => DownloadAction.multiple (js.map (fun j => j.id))

/-- The body sent to the download-multiple endpoint, when that endpoint is
hit at all. -/
def downloadMultipleRequest (jobs : List ConversionJob) (selectedIds : List String) :
    Option (List String) :=
  match handleDownloadSelected jobs selectedIds with
  | DownloadAction.multiple ids => some ids
  | _ => none

/-- The character class `[^.]` of the regex in `handleDownload`. -/
def notDot (c : Char) : Bool := c ≠ '.'

/-- The effect of the regex replace `name.replace(/\.[^.]+$/, "")` from
`handleDownload` (`JobList.tsx` line 119): the pattern matches exactly when
the name has a dot followed by one or more non-dot characters reaching the
end of the string, and the match (the last dot and everything after it) is
removed; otherwise the name is unchanged. -/
def stripLastDotSuffix (cs : List Char) : List Char :=
  let ext := cs.reverse.takeWhile notDot
  let rest := cs.reverse.dropWhile notDot
  if ext.isEmpty ∨ rest.isEmpty then cs else rest.tail.reverse

/-- The download attribute set by `handleDownload` (`JobList.tsx` line 119,
also `PreviewModal` part_003 line 48):
`` `${job.file_info.name.replace(/\.[^.]+$/, "")}.md` ``. -/
def deriveDownloadName (name : String) : String :=
  String.mk (stripLastDotSuffix name.data) ++ ".md"

/-- The selection clean-up effect from `JobList.tsx` lines 76-85: rebuild the
selection keeping only ids that belong to some job in the current list,
preserving the previous selection's order. -/
def pruneSelected (jobs : List ConversionJob) (prev : List String) : List String :=
  prev.filter (fun id => (jobs.map (fun j => j.id)).contains id)

/-- JavaScript `toLowerCase` on one code point, restricted to the ASCII
range that file extensions use. -/
def lowerCp (c : Nat) : Nat :=
  if 65 ≤ c ∧ c ≤ 90 then c + 32 else c

/-- `ext.toLowerCase()` on an extension modelled as a list of code points. -/
def lowerExt (ext : List Nat) : List Nat :=
  ext.map lowerCp

/-- Record lookup `mapping[key]` on the `FileConverterMapping` object
(`Record<string, ConverterType | "auto">`), modelled as an association
list; a missing key yields `undefined`, modelled as `none`. -/
def lookupMapping : List (List Nat × ConverterType) → List Nat → Option ConverterType
  | [], _ => none
  | (k, v) :: rest, e => if k = e then some v else lookupMapping rest e

/-- `getConverterForExtension` from `stores/app.ts` lines 63-72:
without custom settings the result is `"auto"`; otherwise the mapping is
consulted at the lowercased extension, and a present entry other than
`"auto"` wins (`converter && converter !== "auto" ? converter : "auto"`). -/
def getConverterForExtension (ext : List Nat)
    (mapping : List (List Nat × ConverterType)) (useCustom : Bool) : ConverterType :=
  if !useCustom then ConverterType.auto
  else
    match lookupMapping mapping (lowerExt ext) with
    | some c => if c ≠ ConverterType.auto then c else ConverterType.auto
    | none => ConverterType.auto

/-- The `Settings` value the client receives on read, from
`frontend/src/types` (part_000 lines 47-50): a boolean flag for the key,
and the base URL. -/
structure Settings where
  openai_api_key_set : Bool
  openai_base_url : Option String
deriving DecidableEq, Repr

/-- The server-side Settings Store state. Modelled from the spec: the
backend settings handlers are not part of the frontend sources; §3 gives
`{openai_api_key: secret string | unset, openai_base_url: string | unset}`. -/
structure SettingsStore where
  openai_api_key : Option String
  openai_base_url : Option String
deriving DecidableEq, Repr

/-- Modelled from the spec: the backend `GET /settings` handler is not part
of the frontend sources; per §3 and §6 the stored key is "never exposed in
plaintext on read (only a boolean is-set)", so the read returns the is-set
flag and the base URL. -/
def readSettings (s : SettingsStore) : Settings where
  openai_api_key_set := s.openai_api_key.isSome
  openai_base_url := s.openai_base_url

/-- Default maximum upload size from §4.1: 100 MiB. -/
def MAX_UPLOAD_SIZE : Nat := 100 * 1024 * 1024

/-- Upload failure from §4.1 / §7. -/
inductive UploadError where
  | payloadTooLarge
deriving DecidableEq, Repr

/-- Modelled from the spec: the backend File Store `upload` operation is not
part of the frontend sources (`FileUpload.tsx` only calls it); per §4.1 the
call is rejected with `PayloadTooLarge` when a file exceeds the configured
maximum, and otherwise the files enter the store. -/
def upload (maxSize : Nat) (store : List FileInfo) (files : List FileInfo) :
    Except UploadError (List FileInfo) :=
  if files.any (fun f => maxSize < f.size) then Except.error UploadError.payloadTooLarge
  else Except.ok (store ++ files)

/-- A sequence of store updates, applied with `updateJob` in order: the jobs
list after running `updateJob(id, updates)` for each pair. -/
def applyUpdates (ops : List (String × JobUpdate)) (jobs : List ConversionJob) :
    List ConversionJob :=
  ops.foldl (fun js op => updateJob op.1 op.2 js) jobs

/-- A concrete completed job used to instantiate the theorems below. -/
def sampleCompleted : ConversionJob where
  id := "j1"
  file_info :=
    { id := "f1", name := "report.pdf", size := 2048,
      mime_type := "application/pdf", extension := "pdf" }
  converter := ConverterType.markitdown
  status := ConversionStatus.completed
  progress := 100
  created_at := 10
  completed_at := some 12
  output_file := some "out/j1.md"
  output_size := some 500
  error := none
  processing_time := some 2

/-- A concrete pending job used to instantiate the theorems below. -/
def samplePending : ConversionJob where
  id := "j2"
  file_info :=
    { id := "f2", name := "notes.txt", size := 7,
      mime_type := "text/plain", extension := "txt" }
  converter := ConverterType.auto
  status := ConversionStatus.pending
  progress := 0
  created_at := 20
  completed_at := none
  output_file := none
  output_size := none
  error := none
  processing_time := none

section Lemmas

/-- One `lowerCp` application already yields a code point outside the
upper-case range, so a second application is the identity. -/
theorem lowerCp_lowerCp (c : Nat) : lowerCp (lowerCp c) = lowerCp c := by
  unfold lowerCp
  split <;> (try split) <;> omega

/-- `lowerExt` is idempotent. -/
theorem lowerExt_lowerExt (e : List Nat) : lowerExt (lowerExt e) = lowerExt e := by
  induction e with
  | nil => rfl
  | cons c cs ih =>
    simp only [lowerExt, List.map_cons, List.map_map] at ih ⊢
    rw [lowerCp_lowerCp]
    exact congrArg _ ih

/-- Membership in a `ConversionStatus` that is not active is exactly being
terminal. -/
theorem status_terminal_iff (s : ConversionStatus) :
    ¬(s = ConversionStatus.pending ∨ s = ConversionStatus.processing) ↔
      (s = ConversionStatus.completed ∨ s = ConversionStatus.failed) := by
  cases s <;> simp

end Lemmas

/-- C10: `getConverterForExtension` is total and deterministic (it is a
function); it returns `auto` whenever custom settings are off; with custom
settings on it returns the mapping's entry at the lowercased extension when
that entry exists and is not `auto`, and `auto` when the entry is missing or
is `auto`; and its result on an extension equals its result on the
lowercased extension. -/
theorem getConverterForExtension_spec (ext : List Nat)
    (mapping : List (List Nat × ConverterType)) (useCustom : Bool) :
    (useCustom = false →
      getConverterForExtension ext mapping useCustom = ConverterType.auto) ∧
    (∀ c, useCustom = true → lookupMapping mapping (lowerExt ext) = some c →
      c ≠ ConverterType.auto → getConverterForExtension ext mapping useCustom = c) ∧
    (useCustom = true → lookupMapping mapping (lowerExt ext) = none →
      getConverterForExtension ext mapping useCustom = ConverterType.auto) ∧
    (useCustom = true →
      lookupMapping mapping (lowerExt ext) = some ConverterType.auto →
      getConverterForExtension ext mapping useCustom = ConverterType.auto) ∧
    getConverterForExtension ext mapping useCustom =
      getConverterForExtension (lowerExt ext) mapping useCustom := by
  refine ⟨?_, ?_, ?_, ?_, ?_⟩
  · intro h; simp [getConverterForExtension, h]
  · intro c hc hl hne
    simp [getConverterForExtension, hc, hl, hne]
  · intro hc hl; simp [getConverterForExtension, hc, hl]
  · intro hc hl; simp [getConverterForExtension, hc, hl]
  · simp only [getConverterForExtension, lowerExt_lowerExt]

/-- C10 witness: with custom settings on, the extension `"PDF"` (code points
80, 68, 70) resolves through the mapping entry for `"pdf"` (112, 100, 102). -/
theorem getConverterForExtension_spec_witness :
    getConverterForExtension [80, 68, 70]
      [([112, 100, 102], ConverterType.marker)] true = ConverterType.marker :=
  (getConverterForExtension_spec [80, 68, 70]
      [([112, 100, 102], ConverterType.marker)] true).2.1
    ConverterType.marker rfl (by decide) (by decide)

/-- C5: after `handleRemove` runs for a file id, that id is absent from the
uploaded-files list, and the resulting client state is the same whether the
server delete succeeded or failed. -/
theorem handleRemove_spec (serverOk : Bool) (fileId : String)
    (files : List FileInfo) :
    (∀ f ∈ handleRemove serverOk fileId files, f.id ≠ fileId) ∧
    handleRemove true fileId files = handleRemove false fileId files := by
  constructor
  · intro f hf
    cases serverOk <;>
      · simp only [handleRemove, removeUploadedFile, if_true, if_false,
          Bool.false_eq_true, List.mem_filter, decide_eq_true_eq] at hf
        exact hf.2
  · rfl

/-- C2: the jobs query's refetch interval is 2000 milliseconds exactly when
some job is pending or processing, and polling is disabled exactly when
every job is terminal; in particular it is disabled on the empty list. -/
theorem jobsRefetchInterval_spec (jobs : List ConversionJob) :
    (jobsRefetchInterval jobs = RefetchInterval.millis 2000 ↔
      ∃ j ∈ jobs, j.status = ConversionStatus.pending ∨
        j.status = ConversionStatus.processing) ∧
    (jobsRefetchInterval jobs = RefetchInterval.disabled ↔
      ∀ j ∈ jobs, j.status = ConversionStatus.completed ∨
        j.status = ConversionStatus.failed) ∧
    jobsRefetchInterval [] = RefetchInterval.disabled := by
  have hact : hasActiveJobs jobs = true ↔
      ∃ j ∈ jobs, j.status = ConversionStatus.pending ∨
        j.status = ConversionStatus.processing := by
    simp [hasActiveJobs, List.any_eq_true]
  have hterm : hasActiveJobs jobs = false ↔
      ∀ j ∈ jobs, j.status = ConversionStatus.completed ∨
        j.status = ConversionStatus.failed := by
    constructor
    · intro h j hj
      rw [← status_terminal_iff]
      intro hcon
      rw [hact.mpr ⟨j, hj, hcon⟩] at h
      cases h
    · intro hall
      cases h : hasActiveJobs jobs with
      | false => rfl
      | true =>
        exfalso
        obtain ⟨j, hj, hs⟩ := hact.mp h
        exact (status_terminal_iff _).mpr (hall j hj) hs
  refine ⟨?_, ?_, rfl⟩
  · cases h : hasActiveJobs jobs with
    | true => simp [jobsRefetchInterval, h, hact.mp h]
    | false =>
      have hnot : ¬ ∃ j ∈ jobs, j.status = ConversionStatus.pending ∨
          j.status = ConversionStatus.processing := by
        intro hex
        rw [hact.mpr hex] at h
        cases h
      simp [jobsRefetchInterval, h, hnot]
  · cases h : hasActiveJobs jobs with
    | true =>
      have hnot : ¬ ∀ j ∈ jobs, j.status = ConversionStatus.completed ∨
          j.status = ConversionStatus.failed := by
        intro hall
        rw [hterm.mpr hall] at h
        cases h
      simp [jobsRefetchInterval, h, hnot]
    | false =>
      simp only [jobsRefetchInterval, h, Bool.false_eq_true, if_false, true_iff]
      exact hterm.mp h

/-- C2 witness: one pending job switches polling on; one completed job
switches it off. -/
theorem jobsRefetchInterval_spec_witness :
    jobsRefetchInterval [samplePending] = RefetchInterval.millis 2000 :=
  (jobsRefetchInterval_spec [samplePending]).1.mpr
    ⟨samplePending, List.mem_singleton.mpr rfl, Or.inl rfl⟩

/-- C9: the cleaned-up selection contains an id exactly when it was
previously selected and some job in the current list carries it; hence
every id the bulk actions see belongs to a job that currently exists. -/
theorem pruneSelected_spec (jobs : List ConversionJob) (prev : List String) :
    (∀ id, id ∈ pruneSelected jobs prev ↔
      (id ∈ prev ∧ ∃ j ∈ jobs, j.id = id)) ∧
    (∀ id ∈ pruneSelected jobs prev, ∃ j ∈ jobs, j.id = id) := by
  have h : ∀ id, id ∈ pruneSelected jobs prev ↔
      (id ∈ prev ∧ ∃ j ∈ jobs, j.id = id) := by
    intro id
    simp [pruneSelected, List.mem_filter, List.contains_iff_exists_mem_beq,
      List.mem_map, eq_comm]
  exact ⟨h, fun id hid => ((h id).mp hid).2⟩

/-- A single `updateJob` whose update does not set the `status` field leaves
every job's status unchanged. -/
theorem updateJob_map_status (id : String) (u : JobUpdate)
    (h : u.status = none) (jobs : List ConversionJob) :
    (updateJob id u jobs).map (fun j => j.status) =
      jobs.map (fun j => j.status) := by
  unfold updateJob
  rw [List.map_map]
  apply List.map_congr_left
  intro j _
  simp only [Function.comp]
  split
  · simp [applyUpdate, h]
  · rfl

/-- C1 counterexample: `updateJob` overwrites even a terminal status. The
store holds one job with status `completed`; applying the update
`{status: "pending"}` to its id leaves the store with that job in status
`pending`, so a job that reached a terminal status transitions again. -/
theorem updateJob_terminal_counterexample :
    sampleCompleted.status = ConversionStatus.completed ∧
    (updateJob "j1" { status := some ConversionStatus.pending }
        [sampleCompleted]).map (fun j => j.status) =
      [ConversionStatus.pending] := by
  exact ⟨rfl, by decide⟩

/-- C1 (amended): `updateJob` merges arbitrary partial updates, so an update
that sets the `status` field overwrites a terminal status; but any sequence
of updates none of which sets the `status` field leaves every job's status
— in particular `completed` and `failed` — unchanged. -/
theorem applyUpdates_status_free (ops : List (String × JobUpdate))
    (jobs : List ConversionJob) (h : ∀ op ∈ ops, op.2.status = none) :
    (applyUpdates ops jobs).map (fun j => j.status) =
      jobs.map (fun j => j.status) := by
  induction ops generalizing jobs with
  | nil => rfl
  | cons op rest ih =>
    have h1 : op.2.status = none := h op (List.mem_cons_self _ _)
    have h2 : ∀ o ∈ rest, o.2.status = none :=
      fun o ho => h o (List.mem_cons_of_mem _ ho)
    simp only [applyUpdates, List.foldl_cons]
    have := ih (updateJob op.1 op.2 jobs) h2
    simp only [applyUpdates] at this
    rw [this, updateJob_map_status op.1 op.2 h1 jobs]

/-- C1 witness: a progress-only update on the completed job leaves the
status list unchanged. -/
theorem applyUpdates_status_free_witness :
    (applyUpdates [("j1", { progress := some 50 })] [sampleCompleted]).map
        (fun j => j.status) = [sampleCompleted].map (fun j => j.status) :=
  applyUpdates_status_free [("j1", { progress := some 50 })] [sampleCompleted]
    (by decide)

/-- C3: a bulk download request only ever names completed jobs — when no
selected job is completed no request is issued; when exactly one is, the
single-file path is taken and the archive endpoint is not hit; when the
archive endpoint is hit, the posted ids are exactly the ids of the selected
completed jobs; and an id is among those exactly when some job in the list
carries it, is selected, and is completed. -/
theorem handleDownloadSelected_spec (jobs : List ConversionJob)
    (selectedIds : List String) :
    (selectedCompletedJobs jobs selectedIds = [] →
      handleDownloadSelected jobs selectedIds = DownloadAction.noRequest) ∧
    (∀ j, selectedCompletedJobs jobs selectedIds = [j] →
      handleDownloadSelected jobs selectedIds = DownloadAction.single j.id ∧
      downloadMultipleRequest jobs selectedIds = none) ∧
    (∀ ids, downloadMultipleRequest jobs selectedIds = some ids →
      ids = (selectedCompletedJobs jobs selectedIds).map (fun j => j.id)) ∧
    (∀ i, i ∈ (selectedCompletedJobs jobs selectedIds).map (fun j => j.id) ↔
      ∃ j ∈ jobs, j.id = i ∧ selectedIds.contains j.id ∧
        j.status = ConversionStatus.completed) := by
  refine ⟨?_, ?_, ?_, ?_⟩
  · intro h
    unfold handleDownloadSelected
    rw [h]
  · intro j h
    unfold downloadMultipleRequest handleDownloadSelected
    rw [h]
    exact ⟨rfl, rfl⟩
  · intro ids h
    unfold downloadMultipleRequest handleDownloadSelected at h
    rcases hs : selectedCompletedJobs jobs selectedIds with _ | ⟨a, _ | ⟨b, rest⟩⟩ <;>
      rw [hs] at h
    · cases h
    · cases h
    · injection h with h'
      exact h'.symm
  · intro i
    simp only [selectedCompletedJobs, List.mem_map, List.mem_filter,
      decide_eq_true_eq]
    constructor
    · rintro ⟨j, ⟨⟨hjm, hsel⟩, hst⟩, hid⟩
      exact ⟨j, hjm, hid, hsel, hst⟩
    · rintro ⟨j, hjm, hid, hsel, hst⟩
      exact ⟨j, ⟨⟨hjm, hsel⟩, hst⟩, hid⟩

/-- C3 witness: a selection holding only a pending job issues no request. -/
theorem handleDownloadSelected_spec_witness :
    handleDownloadSelected [samplePending] ["j2"] = DownloadAction.noRequest :=
  (handleDownloadSelected_spec [samplePending] ["j2"]).1 (by decide)

/-- C8: `addJobs` puts the new jobs in front of the existing ones, preserving
the relative order inside each group, and when the new jobs are sorted by
`created_at` descending, the existing list is too, and every new job is at
least as recent as every existing one, the whole list stays sorted by
`created_at` descending. -/
theorem addJobs_spec (newJobs stateJobs : List ConversionJob)
    (h1 : List.Sorted (fun a b => b.created_at ≤ a.created_at) newJobs)
    (h2 : List.Sorted (fun a b => b.created_at ≤ a.created_at) stateJobs)
    (h3 : ∀ a ∈ newJobs, ∀ b ∈ stateJobs, b.created_at ≤ a.created_at) :
    (addJobs newJobs stateJobs).take newJobs.length = newJobs ∧
    (addJobs newJobs stateJobs).drop newJobs.length = stateJobs ∧
    List.Sorted (fun a b => b.created_at ≤ a.created_at)
      (addJobs newJobs stateJobs) := by
  unfold addJobs
  refine ⟨List.take_left newJobs stateJobs, List.drop_left newJobs stateJobs, ?_⟩
  exact List.pairwise_append.mpr ⟨h1, h2, h3⟩

/-- C8 witness: prepending the newer pending job to the list holding the
older completed job keeps the list ordered by `created_at` descending. -/
theorem addJobs_spec_witness :
    (addJobs [samplePending] [sampleCompleted]).take [samplePending].length =
      [samplePending] ∧
    (addJobs [samplePending] [sampleCompleted]).drop [samplePending].length =
      [sampleCompleted] ∧
    List.Sorted (fun a b => b.created_at ≤ a.created_at)
      (addJobs [samplePending] [sampleCompleted]) :=
  addJobs_spec [samplePending] [sampleCompleted]
    (List.sorted_singleton _) (List.sorted_singleton _)
    (by
      intro a ha b hb
      rw [List.mem_singleton] at ha hb
      rw [ha, hb]
      exact Nat.le_of_sub_eq_zero rfl)

/-- `takeWhile` walks through a prefix on which the predicate holds. -/
theorem takeWhile_append_all {α : Type} (p : α → Bool) (l1 l2 : List α)
    (h : ∀ x ∈ l1, p x) :
    (l1 ++ l2).takeWhile p = l1 ++ l2.takeWhile p := by
  induction l1 with
  | nil => simp
  | cons a l ih =>
    have ha : p a = true := h a (List.mem_cons_self _ _)
    simp [List.takeWhile_cons, ha,
      ih (fun x hx => h x (List.mem_cons_of_mem _ hx))]

/-- `dropWhile` discards a prefix on which the predicate holds. -/
theorem dropWhile_append_all {α : Type} (p : α → Bool) (l1 l2 : List α)
    (h : ∀ x ∈ l1, p x) :
    (l1 ++ l2).dropWhile p = l2.dropWhile p := by
  induction l1 with
  | nil => simp
  | cons a l ih =>
    have ha : p a = true := h a (List.mem_cons_self _ _)
    simp [List.dropWhile_cons, ha,
      ih (fun x hx => h x (List.mem_cons_of_mem _ hx))]

/-- A name without a dot is left alone by the regex replace. -/
theorem stripLastDotSuffix_no_dot (cs : List Char) (h : '.' ∉ cs) :
    stripLastDotSuffix cs = cs := by
  have h1 : cs.reverse.dropWhile notDot = [] := by
    rw [List.dropWhile_eq_nil_iff]
    intro x hx
    simp only [notDot, decide_eq_true_eq]
    intro hEq
    subst hEq
    exact h (List.mem_reverse.mp hx)
  simp [stripLastDotSuffix, h1]

/-- A name of the shape `base ++ "." ++ ext`, with `ext` nonempty and
dot-free, loses exactly its last dot-suffix. -/
theorem stripLastDotSuffix_ext (base ext : List Char) (h1 : ext ≠ [])
    (h2 : '.' ∉ ext) :
    stripLastDotSuffix (base ++ '.' :: ext) = base := by
  have hall : ∀ x ∈ ext.reverse, notDot x = true := by
    intro x hx
    simp only [notDot, decide_eq_true_eq]
    intro hEq
    subst hEq
    exact h2 (List.mem_reverse.mp hx)
  have hrev : (base ++ '.' :: ext).reverse = ext.reverse ++ '.' :: base.reverse := by
    simp
  have ht : (base ++ '.' :: ext).reverse.takeWhile notDot = ext.reverse := by
    rw [hrev, takeWhile_append_all _ _ _ hall]
    simp [List.takeWhile_cons, notDot]
  have hd : (base ++ '.' :: ext).reverse.dropWhile notDot =
      '.' :: base.reverse := by
    rw [hrev, dropWhile_append_all _ _ _ hall]
    simp [List.dropWhile_cons, notDot]
  have hne : ext.reverse.isEmpty = false := by
    cases hre : ext.reverse with
    | nil => exact absurd (List.reverse_eq_nil_iff.mp hre) h1
    | cons a l => rfl
  have hstep : stripLastDotSuffix (base ++ '.' :: ext) =
      if ext.reverse.isEmpty ∨ ('.' :: base.reverse).isEmpty
      then base ++ '.' :: ext else ('.' :: base.reverse).tail.reverse := by
    unfold stripLastDotSuffix
    rw [ht, hd]
  have hcond : ¬(ext.reverse.isEmpty = true ∨
      ('.' :: base.reverse).isEmpty = true) := by
    intro hcon
    rcases hcon with hc | hc
    · rw [hne] at hc
      cases hc
    · simp at hc
  rw [hstep, if_neg hcond, List.tail_cons, List.reverse_reverse]

/-- C4: for every downloaded job, the saved file's name is the original
file's name with its final dot-suffix replaced by `.md`: a name containing
no dot is kept whole with `.md` appended, and a name `base.ext` with a
nonempty dot-free extension becomes `base.md`. -/
theorem deriveDownloadName_spec :
    (∀ name : String, '.' ∉ name.data →
      deriveDownloadName name = name ++ ".md") ∧
    (∀ base ext : List Char, ext ≠ [] → '.' ∉ ext →
      deriveDownloadName (String.mk (base ++ '.' :: ext)) =
        String.mk base ++ ".md") := by
  constructor
  · intro name h
    unfold deriveDownloadName
    rw [stripLastDotSuffix_no_dot name.data h]
  · intro base ext h1 h2
    unfold deriveDownloadName
    rw [show (String.mk (base ++ '.' :: ext)).data = base ++ '.' :: ext from rfl,
      stripLastDotSuffix_ext base ext h1 h2]

/-- C4 witness: `report.pdf` is saved as `report.md`, and the dotless name
`README` is saved as `README.md`. -/
theorem deriveDownloadName_spec_witness :
    deriveDownloadName (String.mk ("report".data ++ '.' :: "pdf".data)) =
      String.mk "report".data ++ ".md" ∧
    deriveDownloadName "README" = "README" ++ ".md" :=
  ⟨deriveDownloadName_spec.2 "report".data "pdf".data (by decide) (by decide),
   deriveDownloadName_spec.1 "README" (by decide)⟩

/-- C6: a settings read carries only the is-set boolean and the base URL:
with equal base URLs, two stores produce equal read results exactly when
their keys agree on being set, and in particular any two stored key values
produce identical read results, so nothing rendered from a read reveals the
key's characters. -/
theorem readSettings_spec (s1 s2 : SettingsStore)
    (hurl : s1.openai_base_url = s2.openai_base_url) :
    (readSettings s1 = readSettings s2 ↔
      s1.openai_api_key.isSome = s2.openai_api_key.isSome) ∧
    (∀ k1 k2 : String,
      readSettings
          { openai_api_key := some k1, openai_base_url := s1.openai_base_url } =
        readSettings
          { openai_api_key := some k2, openai_base_url := s1.openai_base_url }) := by
  constructor
  · constructor
    · intro h
      simpa [readSettings] using congrArg Settings.openai_api_key_set h
    · intro h
      simp only [readSettings, Settings.mk.injEq]
      exact ⟨h, hurl⟩
  · intro k1 k2
    simp [readSettings]

/-- C6 witness: two different stored keys with the same base URL give the
same read result. -/
theorem readSettings_spec_witness :
    readSettings { openai_api_key := some "sk-alpha",
                   openai_base_url := some "https://api.openai.com/v1" } =
      readSettings { openai_api_key := some "sk-beta",
                     openai_base_url := some "https://api.openai.com/v1" } :=
  (readSettings_spec
      { openai_api_key := some "sk-alpha",
        openai_base_url := some "https://api.openai.com/v1" }
      { openai_api_key := some "sk-beta",
        openai_base_url := some "https://api.openai.com/v1" } rfl).1.mpr rfl

/-- C7: an upload containing a file whose size exceeds the configured
maximum is rejected with `PayloadTooLarge`; a successful upload preserves
the invariant that no file in the store is larger than the maximum; and the
default maximum is 100 MiB. -/
theorem upload_spec (maxSize : Nat) (store files : List FileInfo) :
    ((∃ f ∈ files, maxSize < f.size) →
      upload maxSize store files = Except.error UploadError.payloadTooLarge) ∧
    (∀ newStore, upload maxSize store files = Except.ok newStore →
      (∀ f ∈ store, f.size ≤ maxSize) → ∀ f ∈ newStore, f.size ≤ maxSize) ∧
    MAX_UPLOAD_SIZE = 104857600 := by
  refine ⟨?_, ?_, rfl⟩
  · intro hex
    have hany : files.any (fun f => decide (maxSize < f.size)) = true := by
      rw [List.any_eq_true]
      obtain ⟨f, hf, hlt⟩ := hex
      exact ⟨f, hf, by simpa using hlt⟩
    unfold upload
    rw [if_pos hany]
  · intro newStore hok hstore f hf
    unfold upload at hok
    by_cases hany : files.any (fun f => decide (maxSize < f.size)) = true
    · rw [if_pos hany] at hok
      cases hok
    · rw [if_neg hany] at hok
      injection hok with h'
      subst h'
      rcases List.mem_append.mp hf with hin | hin
      · exact hstore f hin
      · have hnot : ¬ maxSize < f.size := by
          intro hlt
          exact hany (List.any_eq_true.mpr ⟨f, hin, by simpa using hlt⟩)
        omega

/-- C7 witness: a file one byte over 100 MiB is rejected, and a small file
entering an empty store keeps every stored file within the maximum. -/
theorem upload_spec_witness :
    upload MAX_UPLOAD_SIZE []
      [{ id := "f9", name := "big.bin", size := 104857601,
         mime_type := "application/octet-stream", extension := "bin" }] =
      Except.error UploadError.payloadTooLarge ∧
    (∀ f ∈ [({ id := "f2", name := "notes.txt", size := 7,
               mime_type := "text/plain", extension := "txt" } : FileInfo)],
      f.size ≤ MAX_UPLOAD_SIZE) :=
  ⟨(upload_spec MAX_UPLOAD_SIZE []
      [{ id := "f9", name := "big.bin", size := 104857601,
         mime_type := "application/octet-stream", extension := "bin" }]).1
    ⟨_, List.mem_singleton.mpr rfl, by decide⟩,
   (upload_spec MAX_UPLOAD_SIZE []
      [{ id := "f2", name := "notes.txt", size := 7,
         mime_type := "text/plain", extension := "txt" }]).2.1
    [{ id := "f2", name := "notes.txt", size := 7,
       mime_type := "text/plain", extension := "txt" }]
    rfl (by decide)⟩

/-- C5 witness: removing id `"f1"` from a two-file list leaves the surviving
file with an id other than `"f1"`, and the resulting state does not depend
on the server call's outcome. -/
theorem handleRemove_spec_witness :
    ({ id := "f2", name := "notes.txt", size := 7, mime_type := "text/plain",
       extension := "txt" } : FileInfo).id ≠ "f1" ∧
    handleRemove true "f1"
        [{ id := "f1", name := "report.pdf", size := 2048,
           mime_type := "application/pdf", extension := "pdf" },
         { id := "f2", name := "notes.txt", size := 7,
           mime_type := "text/plain", extension := "txt" }] =
      handleRemove false "f1"
        [{ id := "f1", name := "report.pdf", size := 2048,
           mime_type := "application/pdf", extension := "pdf" },
         { id := "f2", name := "notes.txt", size := 7,
           mime_type := "text/plain", extension := "txt" }] :=
  ⟨(handleRemove_spec true "f1"
      [{ id := "f1", name := "report.pdf", size := 2048,
         mime_type := "application/pdf", extension := "pdf" },
       { id := "f2", name := "notes.txt", size := 7,
         mime_type := "text/plain", extension := "txt" }]).1
    { id := "f2", name := "notes.txt", size := 7, mime_type := "text/plain",
      extension := "txt" } (by decide),
   (handleRemove_spec true "f1"
      [{ id := "f1", name := "report.pdf", size := 2048,
         mime_type := "application/pdf", extension := "pdf" },
       { id := "f2", name := "notes.txt", size := 7,
         mime_type := "text/plain", extension := "txt" }]).2⟩

/-- C9 witness: with one job `"j1"` in the list, pruning the selection
`["j1", "zzz"]` keeps `"j1"`. -/
theorem pruneSelected_spec_witness :
    "j1" ∈ pruneSelected [sampleCompleted] ["j1", "zzz"] :=
  ((pruneSelected_spec [sampleCompleted] ["j1", "zzz"]).1 "j1").mpr
    ⟨by decide, sampleCompleted, by decide, by decide⟩
